import Mathlib

/-!
Verification of the fabprint plate-assembly pipeline (orient.py, arrange.py,
plate.py) against its specification.  The Python code is shallowly embedded:
meshes are vertex lists over exact rationals (machine floats are modelled as
exact arithmetic), the external packer (rectpack) and the external
oriented-bounding-box computation (trimesh) are abstract function parameters,
and the 3MF archive is an association list of member names to contents.
-/

/-- A 3D point with rational coordinates. -/
structure Vec3 where
  x : ℚ
  y : ℚ
  z : ℚ
deriving DecidableEq, Repr

/-- A trimesh.Trimesh together with the metadata entries the pipeline uses.
`filamentId = some n` models `metadata["filament_id"] = n`; `none` models the
key being absent.  `paintColors` models `metadata["paint_colors"]`, a
per-face list of optional hex codes; the empty list models the key being
absent or falsy (Python truthiness conflates the two in every use site). -/
structure Mesh where
  verts : List Vec3
  name : String
  filamentId : Option Nat
  paintColors : List (Option String)
deriving DecidableEq, Repr

/-- Minimum of a rational list (0 for the empty list, which models the case
where trimesh `bounds` would be undefined; all theorems that use it require
nonempty vertex lists). -/
def listMin : List ℚ → ℚ
  | [] => 0
  | a :: as => as.foldl min a

/-- Maximum of a rational list (0 for the empty list). -/
def listMax : List ℚ → ℚ
  | [] => 0
  | a :: as => as.foldl max a

/-- X coordinates of a mesh's vertices. -/
def xsOf (m : Mesh) : List ℚ := m.verts.map Vec3.x

/-- Y coordinates of a mesh's vertices. -/
def ysOf (m : Mesh) : List ℚ := m.verts.map Vec3.y

/-- Z coordinates of a mesh's vertices. -/
def zsOf (m : Mesh) : List ℚ := m.verts.map Vec3.z

/-- The value `mesh.bounds[0][0]`. -/
def meshMinX (m : Mesh) : ℚ := listMin (xsOf m)

/-- The value `mesh.bounds[1][0]`. -/
def meshMaxX (m : Mesh) : ℚ := listMax (xsOf m)

/-- The value `mesh.bounds[0][1]`. -/
def meshMinY (m : Mesh) : ℚ := listMin (ysOf m)

/-- The value `mesh.bounds[1][1]`. -/
def meshMaxY (m : Mesh) : ℚ := listMax (ysOf m)

/-- The value `mesh.bounds[0][2]`. -/
def meshMinZ (m : Mesh) : ℚ := listMin (zsOf m)

/-- The value `mesh.bounds[1][2]`. -/
def meshMaxZ (m : Mesh) : ℚ := listMax (zsOf m)

/-- The value `mesh.extents[0]`. -/
def extentX (m : Mesh) : ℚ := meshMaxX m - meshMinX m

/-- The value `mesh.extents[1]`. -/
def extentY (m : Mesh) : ℚ := meshMaxY m - meshMinY m

/-- The value `mesh.extents[2]`. -/
def extentZ (m : Mesh) : ℚ := meshMaxZ m - meshMinZ m

/-- Apply a point transform to every vertex, keeping metadata (models
`mesh.apply_transform` with an arbitrary affine map, which trimesh applies
vertex-wise and which leaves `mesh.metadata` untouched). -/
def applyPointwise (f : Vec3 → Vec3) (m : Mesh) : Mesh :=
  { m with verts := m.verts.map f }

/-- Models `mesh.apply_translation([tx, ty, tz])`. -/
def translateM (tx ty tz : ℚ) (m : Mesh) : Mesh :=
  applyPointwise (fun p => ⟨p.x + tx, p.y + ty, p.z + tz⟩) m

/-- Exact rotation by +90 degrees about the X axis:
`(x, y, z) ↦ (x, -z, y)` (the mathematical value of
`rotation_matrix(radians(90), [1, 0, 0])`). -/
def rotX90 (m : Mesh) : Mesh :=
  applyPointwise (fun p => ⟨p.x, -p.z, p.y⟩) m

/-- Exact rotation by +90 degrees about the Y axis:
`(x, y, z) ↦ (z, y, -x)` (the mathematical value of
`rotation_matrix(radians(90), [0, 1, 0])`). -/
def rotY90 (m : Mesh) : Mesh :=
  applyPointwise (fun p => ⟨p.z, p.y, -p.x⟩) m

/-- General rotation about the X axis with abstract cosine/sine values `c`,
`s` for the requested angle (the code computes them with floating-point
`math.cos`/`math.sin`; here they are opaque rational parameters). -/
def rotAxisX (c s : ℚ) (m : Mesh) : Mesh :=
  applyPointwise (fun p => ⟨p.x, c * p.y - s * p.z, s * p.y + c * p.z⟩) m

/-- General rotation about the Y axis with abstract cosine/sine values. -/
def rotAxisY (c s : ℚ) (m : Mesh) : Mesh :=
  applyPointwise (fun p => ⟨c * p.x + s * p.z, p.y, -s * p.x + c * p.z⟩) m

/-- General rotation about the Z axis with abstract cosine/sine values. -/
def rotAxisZ (c s : ℚ) (m : Mesh) : Mesh :=
  applyPointwise (fun p => ⟨c * p.x - s * p.y, s * p.x + c * p.y, p.z⟩) m

/-- Models `_drop_to_z0(mesh)`: translate so the bottom sits on Z=0, skipped when
`abs(min_z) <= 1e-6`. -/
def dropToZ0 (m : Mesh) : Mesh :=
  if |meshMinZ m| > 1 / 1000000 then translateM 0 0 (-meshMinZ m) m else m

/-- Models `_orient_flat(mesh)`: rotate the mesh so its smallest extent is along Z.
`T` is the abstract vertex transform produced either by
`trimesh.bounds.oriented_bounds` or, on failure, by
`principal_inertia_transform` (both external library computations). -/
def orientFlat (T : Vec3 → Vec3) (m : Mesh) : Mesh :=
  if extentZ m ≤ extentX m ∧ extentZ m ≤ extentY m then m
  else
    if extentZ (applyPointwise T m) > extentX (applyPointwise T m) ∨
        extentZ (applyPointwise T m) > extentY (applyPointwise T m) then
      if extentX (applyPointwise T m) ≤ extentY (applyPointwise T m) then
        rotY90 (applyPointwise T m)
      else rotX90 (applyPointwise T m)
    else applyPointwise T m

/-- Models `if rx: mesh.apply_transform(rotation_matrix(radians(rx), [1, 0, 0]))`. -/
def rotStepX (cosD sinD : ℚ → ℚ) (rx : ℚ) (m : Mesh) : Mesh :=
  if rx ≠ 0 then rotAxisX (cosD rx) (sinD rx) m else m

/-- Models `if ry: mesh.apply_transform(rotation_matrix(radians(ry), [0, 1, 0]))`. -/
def rotStepY (cosD sinD : ℚ → ℚ) (ry : ℚ) (m : Mesh) : Mesh :=
  if ry ≠ 0 then rotAxisY (cosD ry) (sinD ry) m else m

/-- Models `if rz: mesh.apply_transform(rotation_matrix(radians(rz), [0, 0, 1]))`. -/
def rotStepZ (cosD sinD : ℚ → ℚ) (rz : ℚ) (m : Mesh) : Mesh :=
  if rz ≠ 0 then rotAxisZ (cosD rz) (sinD rz) m else m

/-- Models `orient_mesh(mesh, strategy, rotate)`.  `rotate = some (rx, ry, rz)`
models a truthy rotation list; `cosD`/`sinD` give the (abstract) cosine and
sine of an angle in degrees; `T` is the abstract flat-orientation transform.
Returns the oriented copy or the `ValueError` message (rendered here without
the single-quote characters that surround the strategy in the Python
f-string). -/
def orientMesh (T : Vec3 → Vec3) (cosD sinD : ℚ → ℚ) (m : Mesh)
    (strategy : String) (rotate : Option (ℚ × ℚ × ℚ)) : Except String Mesh :=
  match rotate with
  | some (rx, ry, rz) =>
    Except.ok (dropToZ0 (rotStepZ cosD sinD rz (rotStepY cosD sinD ry (rotStepX cosD sinD rx m))))
  | none =>
    if strategy = "flat" then Except.ok (dropToZ0 (orientFlat T m))
    else if strategy = "upright" then Except.ok (dropToZ0 m)
    else if strategy = "side" then Except.ok (dropToZ0 (rotX90 m))
    else Except.error ("Unknown orientation strategy: " ++ strategy)

theorem listMin_cons (a : ℚ) (as : List ℚ) : listMin (a :: as) = as.foldl min a := rfl

theorem foldl_min_le_init (a : ℚ) (as : List ℚ) : as.foldl min a ≤ a := by
  induction as generalizing a with
  | nil => simp
  | cons b bs ih =>
    calc (b :: bs).foldl min a = bs.foldl min (min a b) := rfl
    _ ≤ min a b := ih _
    _ ≤ a := min_le_left _ _

theorem foldl_min_le_mem (a x : ℚ) (as : List ℚ) (hx : x ∈ as) : as.foldl min a ≤ x := by
  induction as generalizing a with
  | nil => cases hx
  | cons b bs ih =>
    rcases List.mem_cons.mp hx with h | h
    · subst h
      calc bs.foldl min (min a x) ≤ min a x := foldl_min_le_init _ _
      _ ≤ x := min_le_right _ _
    · exact ih _ h

theorem le_foldl_min (c a : ℚ) (as : List ℚ) (ha : c ≤ a) (hs : ∀ x ∈ as, c ≤ x) :
    c ≤ as.foldl min a := by
  induction as generalizing a with
  | nil => exact ha
  | cons b bs ih =>
    exact ih (min a b) (le_min ha (hs b (List.mem_cons_self _ _)))
      (fun x hx => hs x (List.mem_cons_of_mem _ hx))

theorem init_le_foldl_max (a : ℚ) (as : List ℚ) : a ≤ as.foldl max a := by
  induction as generalizing a with
  | nil => simp
  | cons b bs ih =>
    calc a ≤ max a b := le_max_left _ _
    _ ≤ bs.foldl max (max a b) := ih _

theorem mem_le_foldl_max (a x : ℚ) (as : List ℚ) (hx : x ∈ as) : x ≤ as.foldl max a := by
  induction as generalizing a with
  | nil => cases hx
  | cons b bs ih =>
    rcases List.mem_cons.mp hx with h | h
    · subst h
      calc x ≤ max a x := le_max_right _ _
      _ ≤ bs.foldl max (max a x) := init_le_foldl_max _ _
    · exact ih _ h

theorem foldl_max_le (c a : ℚ) (as : List ℚ) (ha : a ≤ c) (hs : ∀ x ∈ as, x ≤ c) :
    as.foldl max a ≤ c := by
  induction as generalizing a with
  | nil => exact ha
  | cons b bs ih =>
    exact ih (max a b) (max_le ha (hs b (List.mem_cons_self _ _)))
      (fun x hx => hs x (List.mem_cons_of_mem _ hx))

theorem listMin_le_mem (l : List ℚ) (x : ℚ) (hx : x ∈ l) : listMin l ≤ x := by
  cases l with
  | nil => cases hx
  | cons a as =>
    rcases List.mem_cons.mp hx with h | h
    · subst h; exact foldl_min_le_init _ _
    · exact foldl_min_le_mem _ _ _ h

theorem mem_le_listMax (l : List ℚ) (x : ℚ) (hx : x ∈ l) : x ≤ listMax l := by
  cases l with
  | nil => cases hx
  | cons a as =>
    rcases List.mem_cons.mp hx with h | h
    · subst h; exact init_le_foldl_max _ _
    · exact mem_le_foldl_max _ _ _ h

theorem le_listMin (l : List ℚ) (c : ℚ) (hne : l ≠ []) (h : ∀ x ∈ l, c ≤ x) :
    c ≤ listMin l := by
  cases l with
  | nil => exact absurd rfl hne
  | cons a as =>
    exact le_foldl_min _ _ _ (h a (List.mem_cons_self _ _))
      (fun x hx => h x (List.mem_cons_of_mem _ hx))

theorem listMax_le (l : List ℚ) (c : ℚ) (hne : l ≠ []) (h : ∀ x ∈ l, x ≤ c) :
    listMax l ≤ c := by
  cases l with
  | nil => exact absurd rfl hne
  | cons a as =>
    exact foldl_max_le _ _ _ (h a (List.mem_cons_self _ _))
      (fun x hx => h x (List.mem_cons_of_mem _ hx))

theorem listMin_le_listMax (l : List ℚ) (hne : l ≠ []) : listMin l ≤ listMax l := by
  cases l with
  | nil => exact absurd rfl hne
  | cons a as =>
    calc listMin (a :: as) ≤ a := foldl_min_le_init _ _
    _ ≤ listMax (a :: as) := init_le_foldl_max _ _

theorem foldl_min_map_add (c a : ℚ) (as : List ℚ) :
    (as.map (· + c)).foldl min (a + c) = as.foldl min a + c := by
  induction as generalizing a with
  | nil => rfl
  | cons b bs ih =>
    show (bs.map (· + c)).foldl min (min (a + c) (b + c)) = bs.foldl min (min a b) + c
    rw [min_add_add_right, ih]

theorem listMin_map_add (c : ℚ) (l : List ℚ) (hne : l ≠ []) :
    listMin (l.map (· + c)) = listMin l + c := by
  cases l with
  | nil => exact absurd rfl hne
  | cons a as => exact foldl_min_map_add c a as

theorem foldl_max_map_add (c a : ℚ) (as : List ℚ) :
    (as.map (· + c)).foldl max (a + c) = as.foldl max a + c := by
  induction as generalizing a with
  | nil => rfl
  | cons b bs ih =>
    show (bs.map (· + c)).foldl max (max (a + c) (b + c)) = bs.foldl max (max a b) + c
    rw [max_add_add_right, ih]

theorem listMax_map_add (c : ℚ) (l : List ℚ) (hne : l ≠ []) :
    listMax (l.map (· + c)) = listMax l + c := by
  cases l with
  | nil => exact absurd rfl hne
  | cons a as => exact foldl_max_map_add c a as

theorem foldl_max_map_neg (a : ℚ) (as : List ℚ) :
    (as.map Neg.neg).foldl max (-a) = -(as.foldl min a) := by
  induction as generalizing a with
  | nil => rfl
  | cons b bs ih =>
    show (bs.map Neg.neg).foldl max (max (-a) (-b)) = -(bs.foldl min (min a b))
    rw [max_neg_neg, ih]

theorem listMax_map_neg (l : List ℚ) : listMax (l.map Neg.neg) = -(listMin l) := by
  cases l with
  | nil => simp [listMax, listMin]
  | cons a as => exact foldl_max_map_neg a as

theorem foldl_min_map_neg (a : ℚ) (as : List ℚ) :
    (as.map Neg.neg).foldl min (-a) = -(as.foldl max a) := by
  induction as generalizing a with
  | nil => rfl
  | cons b bs ih =>
    show (bs.map Neg.neg).foldl min (min (-a) (-b)) = -(bs.foldl max (max a b))
    rw [min_neg_neg, ih]

theorem listMin_map_neg (l : List ℚ) : listMin (l.map Neg.neg) = -(listMax l) := by
  cases l with
  | nil => simp [listMax, listMin]
  | cons a as => exact foldl_min_map_neg a as

theorem verts_applyPointwise (f : Vec3 → Vec3) (m : Mesh) :
    (applyPointwise f m).verts = m.verts.map f := rfl

theorem verts_ne_applyPointwise (f : Vec3 → Vec3) (m : Mesh) (hne : m.verts ≠ []) :
    (applyPointwise f m).verts ≠ [] := by
  simp only [verts_applyPointwise, ne_eq, List.map_eq_nil_iff]
  exact hne

theorem zsOf_translateM (tx ty tz : ℚ) (m : Mesh) :
    zsOf (translateM tx ty tz m) = (zsOf m).map (· + tz) := by
  simp only [zsOf, translateM, applyPointwise, List.map_map]
  rfl

theorem xsOf_translateM (tx ty tz : ℚ) (m : Mesh) :
    xsOf (translateM tx ty tz m) = (xsOf m).map (· + tx) := by
  simp only [xsOf, translateM, applyPointwise, List.map_map]
  rfl

theorem ysOf_translateM (tx ty tz : ℚ) (m : Mesh) :
    ysOf (translateM tx ty tz m) = (ysOf m).map (· + ty) := by
  simp only [ysOf, translateM, applyPointwise, List.map_map]
  rfl

theorem zsOf_ne_nil (m : Mesh) (hne : m.verts ≠ []) : zsOf m ≠ [] := by
  simp only [zsOf, ne_eq, List.map_eq_nil_iff]
  exact hne

theorem xsOf_ne_nil (m : Mesh) (hne : m.verts ≠ []) : xsOf m ≠ [] := by
  simp only [xsOf, ne_eq, List.map_eq_nil_iff]
  exact hne

theorem ysOf_ne_nil (m : Mesh) (hne : m.verts ≠ []) : ysOf m ≠ [] := by
  simp only [ysOf, ne_eq, List.map_eq_nil_iff]
  exact hne

theorem meshMinZ_translateM (tx ty tz : ℚ) (m : Mesh) (hne : m.verts ≠ []) :
    meshMinZ (translateM tx ty tz m) = meshMinZ m + tz := by
  rw [meshMinZ, zsOf_translateM, listMin_map_add _ _ (zsOf_ne_nil m hne)]
  rfl

theorem meshMinX_translateM (tx ty tz : ℚ) (m : Mesh) (hne : m.verts ≠ []) :
    meshMinX (translateM tx ty tz m) = meshMinX m + tx := by
  rw [meshMinX, xsOf_translateM, listMin_map_add _ _ (xsOf_ne_nil m hne)]
  rfl

theorem meshMaxX_translateM (tx ty tz : ℚ) (m : Mesh) (hne : m.verts ≠ []) :
    meshMaxX (translateM tx ty tz m) = meshMaxX m + tx := by
  rw [meshMaxX, xsOf_translateM, listMax_map_add _ _ (xsOf_ne_nil m hne)]
  rfl

theorem meshMinY_translateM (tx ty tz : ℚ) (m : Mesh) (hne : m.verts ≠ []) :
    meshMinY (translateM tx ty tz m) = meshMinY m + ty := by
  rw [meshMinY, ysOf_translateM, listMin_map_add _ _ (ysOf_ne_nil m hne)]
  rfl

theorem meshMaxY_translateM (tx ty tz : ℚ) (m : Mesh) (hne : m.verts ≠ []) :
    meshMaxY (translateM tx ty tz m) = meshMaxY m + ty := by
  rw [meshMaxY, ysOf_translateM, listMax_map_add _ _ (ysOf_ne_nil m hne)]
  rfl

theorem extentZ_rotY90 (m : Mesh) : extentZ (rotY90 m) = extentX m := by
  have hz : zsOf (rotY90 m) = (xsOf m).map Neg.neg := by
    simp only [zsOf, xsOf, rotY90, applyPointwise, List.map_map]
    rfl
  simp only [extentZ, extentX, meshMaxZ, meshMinZ, meshMaxX, meshMinX, hz,
    listMax_map_neg, listMin_map_neg]
  ring

theorem extentZ_rotX90 (m : Mesh) : extentZ (rotX90 m) = extentY m := by
  have hz : zsOf (rotX90 m) = ysOf m := by
    simp only [zsOf, ysOf, rotX90, applyPointwise, List.map_map]
    rfl
  simp only [extentZ, extentY, meshMaxZ, meshMinZ, meshMaxY, meshMinY, hz]

theorem minZ_dropToZ0 (m : Mesh) (hne : m.verts ≠ []) :
    |meshMinZ (dropToZ0 m)| ≤ 1 / 1000000 := by
  unfold dropToZ0
  split
  · rw [meshMinZ_translateM _ _ _ _ hne]
    simp
  · rename_i h
    exact le_of_not_lt h

theorem verts_ne_orientFlat (T : Vec3 → Vec3) (m : Mesh) (hne : m.verts ≠ []) :
    (orientFlat T m).verts ≠ [] := by
  unfold orientFlat
  split
  · exact hne
  · split
    · split
      · exact verts_ne_applyPointwise _ _ (verts_ne_applyPointwise _ _ hne)
      · exact verts_ne_applyPointwise _ _ (verts_ne_applyPointwise _ _ hne)
    · exact verts_ne_applyPointwise _ _ hne

theorem verts_ne_rotStepX (cosD sinD : ℚ → ℚ) (rx : ℚ) (m : Mesh) (hne : m.verts ≠ []) :
    (rotStepX cosD sinD rx m).verts ≠ [] := by
  unfold rotStepX
  split
  · exact verts_ne_applyPointwise _ _ hne
  · exact hne

theorem verts_ne_rotStepY (cosD sinD : ℚ → ℚ) (ry : ℚ) (m : Mesh) (hne : m.verts ≠ []) :
    (rotStepY cosD sinD ry m).verts ≠ [] := by
  unfold rotStepY
  split
  · exact verts_ne_applyPointwise _ _ hne
  · exact hne

theorem verts_ne_rotStepZ (cosD sinD : ℚ → ℚ) (rz : ℚ) (m : Mesh) (hne : m.verts ≠ []) :
    (rotStepZ cosD sinD rz m).verts ≠ [] := by
  unfold rotStepZ
  split
  · exact verts_ne_applyPointwise _ _ hne
  · exact hne

/-- C8: every mesh returned by `orient_mesh` — for any accepted strategy or
explicit rotation — has its minimum Z coordinate within 1e-6 of 0, because
`_drop_to_z0` always runs last and translates by the current minimum Z
unless that minimum is already within 1e-6 of 0. -/
theorem orientMesh_minZ_grounded (T : Vec3 → Vec3) (cosD sinD : ℚ → ℚ) (m : Mesh)
    (strategy : String) (rotate : Option (ℚ × ℚ × ℚ)) (m' : Mesh)
    (hok : orientMesh T cosD sinD m strategy rotate = Except.ok m')
    (hne : m.verts ≠ []) : |meshMinZ m'| ≤ 1 / 1000000 := by
  cases rotate with
  | some r =>
    obtain ⟨rx, ry, rz⟩ := r
    simp only [orientMesh, Except.ok.injEq] at hok
    subst hok
    exact minZ_dropToZ0 _ (verts_ne_rotStepZ _ _ _ _ (verts_ne_rotStepY _ _ _ _
      (verts_ne_rotStepX _ _ _ _ hne)))
  | none =>
    simp only [orientMesh] at hok
    split at hok
    · simp only [Except.ok.injEq] at hok
      subst hok
      exact minZ_dropToZ0 _ (verts_ne_orientFlat _ _ hne)
    · split at hok
      · simp only [Except.ok.injEq] at hok
        subst hok
        exact minZ_dropToZ0 _ hne
      · split at hok
        · simp only [Except.ok.injEq] at hok
          subst hok
          exact minZ_dropToZ0 _ (verts_ne_applyPointwise _ _ hne)
        · exact absurd hok (by simp)

/-- Concrete mesh used by witnesses: extents are X=3, Y=1, Z=2. -/
def meshW : Mesh := ⟨[⟨0, 0, 5⟩, ⟨3, 1, 7⟩], "w", none, []⟩

/-- Concrete mesh whose Z extent is already the smallest: extents 3, 2, 1. -/
def flatW : Mesh := ⟨[⟨0, 0, 0⟩, ⟨3, 2, 1⟩], "f", none, []⟩

/-- Witness for C8 at a concrete input. -/
theorem orientMesh_minZ_grounded_witness :
    orientMesh id (fun _ => (0 : ℚ)) (fun _ => (1 : ℚ)) meshW "upright" none =
      Except.ok (dropToZ0 meshW) ∧
    |meshMinZ (dropToZ0 meshW)| ≤ 1 / 1000000 := by
  constructor
  · rfl
  · exact orientMesh_minZ_grounded id (fun _ => (0 : ℚ)) (fun _ => (1 : ℚ)) meshW
      "upright" none (dropToZ0 meshW) rfl (by decide)

/-- C9: `orient_mesh` rejects with the unknown-strategy `ValueError` exactly
when no explicit rotation is supplied and the strategy is outside
`{flat, upright, side}` (the `Except.error` result carries no partial
geometry, so the input is rejected before any mutation); and when an
explicit rotation `[rx, ry, rz]` is supplied, rotations are applied about
X, then Y, then Z, each skipped when its component is zero, followed by the
drop to Z=0, with the strategy string ignored entirely. -/
theorem orientMesh_dispatch (T : Vec3 → Vec3) (cosD sinD : ℚ → ℚ) (m : Mesh)
    (strategy : String) (rotate : Option (ℚ × ℚ × ℚ)) :
    (orientMesh T cosD sinD m strategy rotate =
        Except.error ("Unknown orientation strategy: " ++ strategy) ↔
      rotate = none ∧ strategy ≠ "flat" ∧ strategy ≠ "upright" ∧ strategy ≠ "side") ∧
    (∀ rx ry rz : ℚ, rotate = some (rx, ry, rz) →
      (orientMesh T cosD sinD m strategy rotate =
        Except.ok (dropToZ0 (rotStepZ cosD sinD rz
          (rotStepY cosD sinD ry (rotStepX cosD sinD rx m))))) ∧
      ∀ strategy2 : String, orientMesh T cosD sinD m strategy2 rotate =
        orientMesh T cosD sinD m strategy rotate) := by
  constructor
  · cases rotate with
    | some r =>
      obtain ⟨rx, ry, rz⟩ := r
      simp [orientMesh]
    | none =>
      constructor
      · intro h
        simp only [orientMesh] at h
        split at h
        · exact absurd h (by simp)
        · split at h
          · exact absurd h (by simp)
          · split at h
            · exact absurd h (by simp)
            · rename_i h1 h2 h3
              exact ⟨rfl, h1, h2, h3⟩
      · rintro ⟨-, h1, h2, h3⟩
        simp [orientMesh, h1, h2, h3]
  · intro rx ry rz hr
    subst hr
    exact ⟨rfl, fun strategy2 => rfl⟩

/-- Witness for C9 at concrete inputs. -/
theorem orientMesh_dispatch_witness :
    (orientMesh id (fun _ => (0 : ℚ)) (fun _ => (1 : ℚ)) meshW "tilted" none =
      Except.error ("Unknown orientation strategy: " ++ "tilted")) ∧
    (orientMesh id (fun _ => (0 : ℚ)) (fun _ => (1 : ℚ)) meshW "tilted" (some (90, 0, 0)) =
      Except.ok (dropToZ0 (rotStepZ (fun _ => (0 : ℚ)) (fun _ => (1 : ℚ)) 0
        (rotStepY (fun _ => (0 : ℚ)) (fun _ => (1 : ℚ)) 0
          (rotStepX (fun _ => (0 : ℚ)) (fun _ => (1 : ℚ)) 90 meshW))))) := by
  constructor
  · exact (orientMesh_dispatch id (fun _ => (0 : ℚ)) (fun _ => (1 : ℚ)) meshW
      "tilted" none).1.mpr ⟨rfl, by decide, by decide, by decide⟩
  · exact ((orientMesh_dispatch id (fun _ => (0 : ℚ)) (fun _ => (1 : ℚ)) meshW
      "tilted" (some (90, 0, 0))).2 90 0 0 rfl).1

/-- C5: `flat` orientation with no explicit rotation.  The cheap path keeps
the mesh unrotated (only dropped to Z=0) when the Z extent is already at
most both the X and Y extents; otherwise the abstract oriented-bounding-box
(or fallback) transform `T` is applied, and if Z is still not the smallest
extent a 90-degree rotation about Y (when X holds the smaller of the X/Y
extents) or about X (when Y holds it) moves that smaller extent onto Z. -/
theorem orientFlat_paths (T : Vec3 → Vec3) (cosD sinD : ℚ → ℚ) (m : Mesh) :
    (extentZ m ≤ extentX m ∧ extentZ m ≤ extentY m →
      orientMesh T cosD sinD m "flat" none = Except.ok (dropToZ0 m)) ∧
    (¬(extentZ m ≤ extentX m ∧ extentZ m ≤ extentY m) →
      (¬(extentZ (applyPointwise T m) > extentX (applyPointwise T m) ∨
          extentZ (applyPointwise T m) > extentY (applyPointwise T m)) →
        orientMesh T cosD sinD m "flat" none =
          Except.ok (dropToZ0 (applyPointwise T m))) ∧
      ((extentZ (applyPointwise T m) > extentX (applyPointwise T m) ∨
          extentZ (applyPointwise T m) > extentY (applyPointwise T m)) →
        (extentX (applyPointwise T m) ≤ extentY (applyPointwise T m) →
          orientMesh T cosD sinD m "flat" none =
            Except.ok (dropToZ0 (rotY90 (applyPointwise T m))) ∧
          extentZ (rotY90 (applyPointwise T m)) = extentX (applyPointwise T m)) ∧
        (¬ extentX (applyPointwise T m) ≤ extentY (applyPointwise T m) →
          orientMesh T cosD sinD m "flat" none =
            Except.ok (dropToZ0 (rotX90 (applyPointwise T m))) ∧
          extentZ (rotX90 (applyPointwise T m)) = extentY (applyPointwise T m)))) := by
  have hbase : orientMesh T cosD sinD m "flat" none =
      Except.ok (dropToZ0 (orientFlat T m)) := rfl
  refine ⟨fun h1 => ?_, fun h1 => ⟨fun h2 => ?_, fun h2 => ⟨fun h3 => ⟨?_, ?_⟩, fun h3 => ⟨?_, ?_⟩⟩⟩⟩
  · rw [hbase, orientFlat, if_pos h1]
  · rw [hbase, orientFlat, if_neg h1, if_neg h2]
  · rw [hbase, orientFlat, if_neg h1, if_pos h2, if_pos h3]
  · exact extentZ_rotY90 _
  · rw [hbase, orientFlat, if_neg h1, if_pos h2, if_neg h3]
  · exact extentZ_rotX90 _

/-- Witness for C5 at concrete inputs: `flatW` takes the cheap path, and
`meshW` with `T = id` takes the rotate-about-X path (its Y extent is the
smaller of X/Y). -/
theorem orientFlat_paths_witness :
    (orientMesh id (fun _ => (0 : ℚ)) (fun _ => (1 : ℚ)) flatW "flat" none =
      Except.ok (dropToZ0 flatW)) ∧
    (orientMesh id (fun _ => (0 : ℚ)) (fun _ => (1 : ℚ)) meshW "flat" none =
      Except.ok (dropToZ0 (rotX90 (applyPointwise id meshW))) ∧
    extentZ (rotX90 (applyPointwise id meshW)) = extentY (applyPointwise id meshW)) := by
  constructor
  · exact (orientFlat_paths id (fun _ => (0 : ℚ)) (fun _ => (1 : ℚ)) flatW).1
      (by norm_num [extentX, extentY, extentZ, meshMaxX, meshMinX, meshMaxY, meshMinY,
        meshMaxZ, meshMinZ, listMax, listMin, xsOf, ysOf, zsOf, flatW, max_def, min_def])
  · exact (((orientFlat_paths id (fun _ => (0 : ℚ)) (fun _ => (1 : ℚ)) meshW).2
      (by norm_num [extentX, extentY, extentZ, meshMaxX, meshMinX, meshMaxY, meshMinY,
        meshMaxZ, meshMinZ, listMax, listMin, xsOf, ysOf, zsOf, meshW, max_def, min_def])).2
      (by norm_num [extentX, extentY, extentZ, meshMaxX, meshMinX, meshMaxY, meshMinY,
        meshMaxZ, meshMinZ, listMax, listMin, xsOf, ysOf, zsOf, meshW, applyPointwise,
        max_def, min_def])).2
      (by norm_num [extentX, extentY, extentZ, meshMaxX, meshMinX, meshMaxY, meshMinY,
        meshMaxZ, meshMinZ, listMax, listMin, xsOf, ysOf, zsOf, meshW, applyPointwise,
        max_def, min_def])

/-- One packed mesh instance (`arrange.Placement`). -/
structure Placement where
  mesh : Mesh
  name : String
  x : ℚ
  y : ℚ
deriving DecidableEq, Repr

/-- One entry of `packer.rect_list()`: the tuple `(b, x, y, w, h, rid)` with
the single bin id dropped (only one bin is ever added). -/
structure PackedRect where
  x : ℤ
  y : ℤ
  w : ℤ
  h : ℤ
  rid : Nat
deriving DecidableEq, Repr

/-- Python `int(q)`: truncation toward zero. -/
def pyInt (q : ℚ) : ℤ := if 0 ≤ q then ⌊q⌋ else ⌈q⌉

/-- Placeholder mesh for out-of-range packer ids (never reached under the
packer-validity hypotheses; Python would raise `IndexError` there). -/
def defaultMesh : Mesh := ⟨[], "", none, []⟩

/-- The padded integer footprints submitted to the packer, with their list
indices as rectangle ids: `(i, int(w + padding + 1), int(h + padding + 1))`. -/
def rectsOfAux (padding : ℚ) : Nat → List Mesh → List (Nat × ℤ × ℤ)
  | _, [] => []
  | i, m :: ms =>
    (i, pyInt (extentX m + padding + 1), pyInt (extentY m + padding + 1)) ::
      rectsOfAux padding (i + 1) ms

/-- The `rects` list as built by the loop in `arrange`. -/
def rectsOf (meshes : List Mesh) (padding : ℚ) : List (Nat × ℤ × ℤ) :=
  rectsOfAux padding 0 meshes

/-- Build one `Placement` from a packed rectangle: translate the mesh copy so
its minimum XY corner lands at `(x + padding/2, y + padding/2)` and record
the packed origin. -/
def mkPlacement (meshes : List Mesh) (names : List String) (padding : ℚ)
    (r : PackedRect) : Placement :=
  ⟨translateM ((r.x : ℚ) + padding / 2 - meshMinX (meshes.getD r.rid defaultMesh))
      ((r.y : ℚ) + padding / 2 - meshMinY (meshes.getD r.rid defaultMesh)) 0
      (meshes.getD r.rid defaultMesh),
    names.getD r.rid "", (r.x : ℚ), (r.y : ℚ)⟩

/-- The capacity-violation `ValueError` message. -/
def notFitMsg (placed total : Nat) (pw ph : ℚ) : String :=
  "Only " ++ toString placed ++ "/" ++ toString total ++ " parts fit on the " ++
    toString pw ++ "x" ++ toString ph ++ "mm plate"

/-- X component of the centering translation `_center_on_plate` applies. -/
def groupDx (pw : ℚ) (ps : List Placement) : ℚ :=
  pw / 2 - (listMin (ps.map (fun p => meshMinX p.mesh)) +
    listMax (ps.map (fun p => meshMaxX p.mesh))) / 2

/-- Y component of the centering translation. -/
def groupDy (ph : ℚ) (ps : List Placement) : ℚ :=
  ph / 2 - (listMin (ps.map (fun p => meshMinY p.mesh)) +
    listMax (ps.map (fun p => meshMaxY p.mesh))) / 2

/-- Models `_center_on_plate(placements, plate_size)`: translate every placement by
the vector centering the union bounding box on the plate center (no-op for
the empty list). -/
def centerOnPlate (pw ph : ℚ) : List Placement → List Placement
  | [] => []
  | p0 :: rest =>
    (p0 :: rest).map (fun q =>
      ⟨translateM (groupDx pw (p0 :: rest)) (groupDy ph (p0 :: rest)) 0 q.mesh,
        q.name, q.x + groupDx pw (p0 :: rest), q.y + groupDy ph (p0 :: rest)⟩)

/-- Models `arrange(meshes, names, plate_size, padding)`.  The rectpack packer is an
abstract parameter `pack` taking the integer bin dimensions and the
submitted rectangles and returning the placed rectangles. -/
def arrange (pack : ℤ → ℤ → List (Nat × ℤ × ℤ) → List PackedRect)
    (meshes : List Mesh) (names : List String) (pw ph padding : ℚ) :
    Except String (List Placement) :=
  if meshes.length ≠ names.length then
    Except.error "meshes and names must have the same length"
  else
    if (pack (pyInt pw) (pyInt ph) (rectsOf meshes padding)).length ≠ meshes.length then
      Except.error (notFitMsg (pack (pyInt pw) (pyInt ph) (rectsOf meshes padding)).length
        meshes.length pw ph)
    else
      Except.ok (centerOnPlate pw ph
        ((pack (pyInt pw) (pyInt ph) (rectsOf meshes padding)).map
          (mkPlacement meshes names padding)))

theorem centerOnPlate_length (pw ph : ℚ) (ps : List Placement) :
    (centerOnPlate pw ph ps).length = ps.length := by
  cases ps with
  | nil => rfl
  | cons p0 rest => simp [centerOnPlate]

/-- C6: `arrange` rejects mismatched list lengths with its specific error —
uniformly in the packer, so before any packing or translation happens; when
the packer places fewer rectangles than submitted it fails with the message
reporting placed and total counts and the plate dimensions (returning no
placements); and a successful call returns exactly as many placements as
meshes were submitted. -/
theorem arrange_contract (pack : ℤ → ℤ → List (Nat × ℤ × ℤ) → List PackedRect)
    (meshes : List Mesh) (names : List String) (pw ph padding : ℚ) :
    (meshes.length ≠ names.length →
      arrange pack meshes names pw ph padding =
        Except.error "meshes and names must have the same length") ∧
    (meshes.length = names.length →
      (pack (pyInt pw) (pyInt ph) (rectsOf meshes padding)).length ≠ meshes.length →
      arrange pack meshes names pw ph padding =
        Except.error (notFitMsg (pack (pyInt pw) (pyInt ph) (rectsOf meshes padding)).length
          meshes.length pw ph)) ∧
    (∀ ps : List Placement, arrange pack meshes names pw ph padding = Except.ok ps →
      ps.length = meshes.length) := by
  refine ⟨fun hlen => ?_, fun hlen hpacked => ?_, fun ps hok => ?_⟩
  · rw [arrange, if_pos hlen]
  · rw [arrange, if_neg (by simp [hlen]), if_pos hpacked]
  · rw [arrange] at hok
    split at hok
    · exact absurd hok (by simp)
    · split at hok
      · exact absurd hok (by simp)
      · rename_i hpk
        simp only [Except.ok.injEq] at hok
        subst hok
        rw [centerOnPlate_length, List.length_map]
        exact not_ne_iff.mp hpk

/-- Witness for C6 at concrete inputs: a length mismatch, a packer that
places nothing, and a packer that places the single submitted rectangle. -/
theorem arrange_contract_witness :
    (arrange (fun _ _ _ => []) [defaultMesh] [] 10 10 5 =
      Except.error "meshes and names must have the same length") ∧
    (arrange (fun _ _ _ => []) [defaultMesh] ["a"] 10 10 5 =
      Except.error (notFitMsg 0 1 10 10)) ∧
    (centerOnPlate 10 10
        ([PackedRect.mk 0 0 6 6 0].map (mkPlacement [defaultMesh] ["a"] 5))).length = 1 := by
  refine ⟨?_, ?_, ?_⟩
  · exact (arrange_contract (fun _ _ _ => []) [defaultMesh] [] 10 10 5).1 (by decide)
  · exact (arrange_contract (fun _ _ _ => []) [defaultMesh] ["a"] 10 10 5).2.1 rfl (by decide)
  · exact (arrange_contract (fun _ _ _ => [PackedRect.mk 0 0 6 6 0])
      [defaultMesh] ["a"] 10 10 5).2.2 _ rfl

theorem getD_of_get? {α : Type} (l : List α) (n : Nat) (d a : α) (h : l.get? n = some a) :
    l.getD n d = a := by
  simp [List.getD_eq_getElem?_getD, ← List.get?_eq_getElem?, h]

theorem pyInt_le_self (q : ℚ) (h : 0 ≤ q) : (pyInt q : ℚ) ≤ q := by
  rw [pyInt, if_pos h]
  exact Int.floor_le q

theorem le_pyInt_succ (q : ℚ) (h : 0 ≤ q) : q ≤ (pyInt (q + 1) : ℚ) := by
  rw [pyInt, if_pos (by linarith)]
  have hf : q + 1 - 1 < ((⌊q + 1⌋ : ℤ) : ℚ) := Int.sub_one_lt_floor (q + 1)
  linarith

theorem mem_rectsOfAux (padding : ℚ) (e : Nat × ℤ × ℤ) :
    ∀ (ms : List Mesh) (i : Nat), e ∈ rectsOfAux padding i ms →
    ∃ (j : Nat) (m : Mesh), ms.get? j = some m ∧
      e = (i + j, pyInt (extentX m + padding + 1), pyInt (extentY m + padding + 1)) := by
  intro ms
  induction ms with
  | nil => intro i h; simp [rectsOfAux] at h
  | cons m0 rest ih =>
    intro i h
    rw [rectsOfAux, List.mem_cons] at h
    rcases h with h | h
    · exact ⟨0, m0, rfl, by simpa using h⟩
    · obtain ⟨j, m, hget, he⟩ := ih (i + 1) h
      exact ⟨j + 1, m, hget, by rw [he]; congr 1; omega⟩

theorem mem_rectsOf (padding : ℚ) (meshes : List Mesh) (e : Nat × ℤ × ℤ)
    (h : e ∈ rectsOf meshes padding) :
    ∃ m : Mesh, meshes.get? e.1 = some m ∧
      e.2.1 = pyInt (extentX m + padding + 1) ∧ e.2.2 = pyInt (extentY m + padding + 1) := by
  obtain ⟨j, m, hget, he⟩ := mem_rectsOfAux padding e meshes 0 h
  subst he
  refine ⟨m, ?_, rfl, rfl⟩
  simpa using hget

theorem centerOnPlate_bounds (pw ph : ℚ) (pre : List Placement)
    (hvert : ∀ q ∈ pre, q.mesh.verts ≠ [])
    (hbox : ∀ q ∈ pre, 0 ≤ meshMinX q.mesh ∧ meshMaxX q.mesh ≤ pw ∧
      0 ≤ meshMinY q.mesh ∧ meshMaxY q.mesh ≤ ph) :
    ∀ p ∈ centerOnPlate pw ph pre, 0 ≤ meshMinX p.mesh ∧ meshMaxX p.mesh ≤ pw ∧
      0 ≤ meshMinY p.mesh ∧ meshMaxY p.mesh ≤ ph := by
  cases pre with
  | nil => intro p hp; simp [centerOnPlate] at hp
  | cons p0 rest =>
    intro p hp
    simp only [centerOnPlate, List.mem_map] at hp
    obtain ⟨q, hq, rfl⟩ := hp
    have hqv : q.mesh.verts ≠ [] := hvert q hq
    have h1 : listMin ((p0 :: rest).map (fun r => meshMinX r.mesh)) ≤ meshMinX q.mesh :=
      listMin_le_mem _ _ (List.mem_map_of_mem _ hq)
    have h2 : meshMaxX q.mesh ≤ listMax ((p0 :: rest).map (fun r => meshMaxX r.mesh)) :=
      mem_le_listMax _ _ (List.mem_map_of_mem _ hq)
    have h3 : 0 ≤ listMin ((p0 :: rest).map (fun r => meshMinX r.mesh)) := by
      apply le_listMin _ _ (by simp)
      intro x hx
      rw [List.mem_map] at hx
      obtain ⟨q2, hq2, rfl⟩ := hx
      exact (hbox q2 hq2).1
    have h4 : listMax ((p0 :: rest).map (fun r => meshMaxX r.mesh)) ≤ pw := by
      apply listMax_le _ _ (by simp)
      intro x hx
      rw [List.mem_map] at hx
      obtain ⟨q2, hq2, rfl⟩ := hx
      exact (hbox q2 hq2).2.1
    have h5 : listMin ((p0 :: rest).map (fun r => meshMinY r.mesh)) ≤ meshMinY q.mesh :=
      listMin_le_mem _ _ (List.mem_map_of_mem _ hq)
    have h6 : meshMaxY q.mesh ≤ listMax ((p0 :: rest).map (fun r => meshMaxY r.mesh)) :=
      mem_le_listMax _ _ (List.mem_map_of_mem _ hq)
    have h7 : 0 ≤ listMin ((p0 :: rest).map (fun r => meshMinY r.mesh)) := by
      apply le_listMin _ _ (by simp)
      intro x hx
      rw [List.mem_map] at hx
      obtain ⟨q2, hq2, rfl⟩ := hx
      exact (hbox q2 hq2).2.2.1
    have h8 : listMax ((p0 :: rest).map (fun r => meshMaxY r.mesh)) ≤ ph := by
      apply listMax_le _ _ (by simp)
      intro x hx
      rw [List.mem_map] at hx
      obtain ⟨q2, hq2, rfl⟩ := hx
      exact (hbox q2 hq2).2.2.2
    dsimp only
    rw [meshMinX_translateM _ _ _ _ hqv, meshMaxX_translateM _ _ _ _ hqv,
      meshMinY_translateM _ _ _ _ hqv, meshMaxY_translateM _ _ _ _ hqv]
    rw [groupDx, groupDy]
    refine ⟨by linarith, by linarith, by linarith, by linarith⟩

/-- C7: after the final centering pass, every placement returned by a
successful `arrange` call has its mesh's XY bounding box inside
`[0, plate_w] × [0, plate_h]`.  The abstract packer is assumed to behave as
rectpack does: every placed rectangle lies inside the integer bin and
carries the id and dimensions of a submitted rectangle. -/
theorem arrange_containment (pack : ℤ → ℤ → List (Nat × ℤ × ℤ) → List PackedRect)
    (meshes : List Mesh) (names : List String) (pw ph padding : ℚ)
    (ps : List Placement)
    (harr : arrange pack meshes names pw ph padding = Except.ok ps)
    (hpad : 0 ≤ padding) (hw : 0 ≤ pw) (hh : 0 ≤ ph)
    (hne : ∀ m ∈ meshes, m.verts ≠ [])
    (hpk : ∀ r ∈ pack (pyInt pw) (pyInt ph) (rectsOf meshes padding),
      0 ≤ r.x ∧ 0 ≤ r.y ∧ r.x + r.w ≤ pyInt pw ∧ r.y + r.h ≤ pyInt ph ∧
      (r.rid, r.w, r.h) ∈ rectsOf meshes padding) :
    ∀ p ∈ ps, 0 ≤ meshMinX p.mesh ∧ meshMaxX p.mesh ≤ pw ∧
      0 ≤ meshMinY p.mesh ∧ meshMaxY p.mesh ≤ ph := by
  rw [arrange] at harr
  split at harr
  · exact absurd harr (by simp)
  split at harr
  · exact absurd harr (by simp)
  simp only [Except.ok.injEq] at harr
  subst harr
  apply centerOnPlate_bounds
  · intro q hq
    rw [List.mem_map] at hq
    obtain ⟨r, hr, rfl⟩ := hq
    obtain ⟨hx0, hy0, hxw, hyh, hmem⟩ := hpk r hr
    obtain ⟨m, hget, hwEq, hhEq⟩ := mem_rectsOf padding meshes _ hmem
    have hgd : meshes.getD r.rid defaultMesh = m := getD_of_get? _ _ _ _ hget
    have hmv : m.verts ≠ [] := hne m (List.get?_mem hget)
    simp only [mkPlacement, hgd]
    exact verts_ne_applyPointwise _ _ hmv
  · intro q hq
    rw [List.mem_map] at hq
    obtain ⟨r, hr, rfl⟩ := hq
    obtain ⟨hx0, hy0, hxw, hyh, hmem⟩ := hpk r hr
    obtain ⟨m, hget, hwEq, hhEq⟩ := mem_rectsOf padding meshes _ hmem
    have hgd : meshes.getD r.rid defaultMesh = m := getD_of_get? _ _ _ _ hget
    have hmv : m.verts ≠ [] := hne m (List.get?_mem hget)
    simp only [mkPlacement, hgd]
    rw [meshMinX_translateM _ _ _ _ hmv, meshMaxX_translateM _ _ _ _ hmv,
      meshMinY_translateM _ _ _ _ hmv, meshMaxY_translateM _ _ _ _ hmv]
    have hex : 0 ≤ extentX m := by
      have := listMin_le_listMax (xsOf m) (xsOf_ne_nil m hmv)
      simp only [extentX, meshMaxX, meshMinX]
      linarith
    have hey : 0 ≤ extentY m := by
      have := listMin_le_listMax (ysOf m) (ysOf_ne_nil m hmv)
      simp only [extentY, meshMaxY, meshMinY]
      linarith
    have hwq : extentX m + padding ≤ (r.w : ℚ) := by
      have := le_pyInt_succ (extentX m + padding) (by linarith)
      rw [← hwEq] at this
      linarith
    have hhq : extentY m + padding ≤ (r.h : ℚ) := by
      have := le_pyInt_succ (extentY m + padding) (by linarith)
      rw [← hhEq] at this
      linarith
    have hrx : (0 : ℚ) ≤ (r.x : ℚ) := by exact_mod_cast hx0
    have hry : (0 : ℚ) ≤ (r.y : ℚ) := by exact_mod_cast hy0
    have hxwq : (r.x : ℚ) + (r.w : ℚ) ≤ (pyInt pw : ℚ) := by exact_mod_cast hxw
    have hyhq : (r.y : ℚ) + (r.h : ℚ) ≤ (pyInt ph : ℚ) := by exact_mod_cast hyh
    have hpwq : (pyInt pw : ℚ) ≤ pw := pyInt_le_self pw hw
    have hphq : (pyInt ph : ℚ) ≤ ph := pyInt_le_self ph hh
    have hxmax : meshMaxX m = meshMinX m + extentX m := by
      simp only [extentX]
      ring
    have hymax : meshMaxY m = meshMinY m + extentY m := by
      simp only [extentY]
      ring
    refine ⟨by linarith, ?_, by linarith, ?_⟩
    · rw [hxmax]
      linarith
    · rw [hymax]
      linarith

/-- Concrete 2x2x2 cube mesh at the origin for the C7 witness. -/
def cubeW : Mesh := ⟨[⟨0, 0, 0⟩, ⟨2, 2, 2⟩], "c", none, []⟩

/-- The single placement produced by the C7 witness scenario. -/
def pW : Placement :=
  (centerOnPlate 10 10
    ([PackedRect.mk 0 0 4 4 0].map (mkPlacement [cubeW] ["c"] 1))).getD 0
    ⟨defaultMesh, "", 0, 0⟩

/-- Witness for C7 at a concrete input: one 2x2 footprint with padding 1
packed at the origin of a 10x10 plate. -/
theorem arrange_containment_witness :
    0 ≤ meshMinX pW.mesh ∧ meshMaxX pW.mesh ≤ 10 ∧
    0 ≤ meshMinY pW.mesh ∧ meshMaxY pW.mesh ≤ 10 := by
  apply arrange_containment (fun _ _ _ => [PackedRect.mk 0 0 4 4 0]) [cubeW] ["c"]
      10 10 1 (centerOnPlate 10 10
        ([PackedRect.mk 0 0 4 4 0].map (mkPlacement [cubeW] ["c"] 1)))
      ?_ ?_ ?_ ?_ ?_ ?_ pW (List.mem_cons_self _ _)
  · rfl
  · norm_num
  · norm_num
  · norm_num
  · intro m hm
    rw [List.mem_singleton] at hm
    subst hm
    decide
  · intro r hr
    rw [List.mem_singleton] at hr
    subst hr
    refine ⟨by norm_num, by norm_num, ?_, ?_, ?_⟩
    · norm_num [pyInt]
    · norm_num [pyInt]
    · norm_num [rectsOf, rectsOfAux, pyInt, extentX, extentY, meshMaxX, meshMinX,
        meshMaxY, meshMinY, listMax, listMin, xsOf, ysOf, cubeW, max_def, min_def]

/-- Models `build_plate(placements, plate_size)`: shift each mesh copy by
`(-plate_w/2, -plate_h/2, 0)` and set `metadata["name"]` to the placement
name before inserting it; the Scene is modelled as the insertion-order list
of geometries.  `mesh.copy()` deep-copies `metadata`, so the
`filament_id`/`paint_colors` entries the part carried ride along unchanged
(modelled by `translateM` keeping every non-vertex field). -/
def buildPlate (placements : List Placement) (pw ph : ℚ) : List Mesh :=
  placements.map (fun p =>
    { translateM (-(pw / 2)) (-(ph / 2)) 0 p.mesh with name := p.name })

/-- C3: `build_plate` inserts one geometry per placement, in order, and the
i-th inserted geometry is the placement's mesh copy shifted to plate-center
coordinates, carrying the placement's display name and the part-level
metadata (filament slot and pre-existing per-triangle paint colors) of the
placement's mesh. -/
theorem buildPlate_metadata (placements : List Placement) (pw ph : ℚ) :
    (buildPlate placements pw ph).length = placements.length ∧
    ∀ (i : Nat) (p : Placement), placements.get? i = some p →
      ∃ g : Mesh, (buildPlate placements pw ph).get? i = some g ∧
        g = { translateM (-(pw / 2)) (-(ph / 2)) 0 p.mesh with name := p.name } ∧
        g.name = p.name ∧ g.filamentId = p.mesh.filamentId ∧
        g.paintColors = p.mesh.paintColors := by
  constructor
  · exact List.length_map _ _
  · intro i p hp
    refine ⟨{ translateM (-(pw / 2)) (-(ph / 2)) 0 p.mesh with name := p.name },
      ?_, rfl, rfl, rfl, rfl⟩
    rw [buildPlate, List.get?_eq_getElem?, List.getElem?_map, ← List.get?_eq_getElem?, hp]
    rfl

/-- Concrete placement whose mesh carries both metadata entries, for the C3
witness. -/
def placementW : Placement :=
  ⟨⟨[⟨1, 2, 3⟩], "orig", some 3, [some "4", none]⟩, "disp", 7, 8⟩

/-- Witness for C3 at a concrete input. -/
theorem buildPlate_metadata_witness :
    ∃ g : Mesh, (buildPlate [placementW] 10 10).get? 0 = some g ∧
      g = { translateM (-(10 / 2)) (-(10 / 2)) 0 placementW.mesh with
            name := placementW.name } ∧
      g.name = placementW.name ∧ g.filamentId = placementW.mesh.filamentId ∧
      g.paintColors = placementW.mesh.paintColors :=
  (buildPlate_metadata [placementW] 10 10).2 0 placementW rfl

/-- One `<triangle>` element of the model document: its attributes in
document order. -/
structure Triangle where
  attrs : List (String × String)
deriving DecidableEq, Repr

/-- One `<object>` element: its `id` attribute and its descendant
`<triangle>` elements in document order
(`obj.findall(".//triangle")`). -/
structure Object3MF where
  objId : String
  triangles : List Triangle
deriving DecidableEq, Repr

/-- The `3D/3dmodel.model` document reduced to the structure
`_inject_paint_data` traverses: the `<object>` elements in document order
(`root.findall(".//object")`) and the `(name, text)` pairs of the root's
`<metadata>` children. -/
structure ModelDoc where
  objects : List Object3MF
  metadata : List (String × String)
deriving DecidableEq, Repr

/-- ElementTree `element.set(key, value)`: replace the attribute in place
when the key is present (attribute keys are unique), else append it. -/
def setAttr (k v : String) : List (String × String) → List (String × String)
  | [] => [(k, v)]
  | (k2, v2) :: rest => if k2 = k then (k, v) :: rest else (k2, v2) :: setAttr k v rest

/-- ElementTree `element.get(key)`. -/
def getAttr (k : String) : List (String × String) → Option String
  | [] => none
  | (k2, v2) :: rest => if k2 = k then some v2 else getAttr k rest

/-- Models `tri.set("paint_color", code)`. -/
def setPaint (c : String) (t : Triangle) : Triangle := ⟨setAttr "paint_color" c t.attrs⟩

/-- The inner loop of `_inject_paint_data`:
`for j, tri in enumerate(triangles)`, setting `paint_color` exactly when
`j < len(paint_colors)` and `paint_colors[j] is not None`. -/
def paintTriangles : List (Option String) → List Triangle → List Triangle
  | _, [] => []
  | cs, t :: ts =>
    match cs with
    | [] => t :: paintTriangles [] ts
    | none :: cs2 => t :: paintTriangles cs2 ts
    | some c :: cs2 => setPaint c t :: paintTriangles cs2 ts

/-- The outer loop of `_inject_paint_data`:
`for i, obj in enumerate(objects)` with the `i >= len(geometries)` break and
the `if not paint_colors: continue` skip. -/
def paintObjects : List Mesh → List Object3MF → List Object3MF
  | _, [] => []
  | gs, o :: os =>
    match gs with
    | [] => o :: paintObjects [] os
    | g :: gs2 =>
      (if g.paintColors = [] then o
       else ⟨o.objId, paintTriangles g.paintColors o.triangles⟩) :: paintObjects gs2 os

/-- The model-document transformation performed by `_inject_paint_data`
after its early-return check: paint the objects by index and append the
`BambuStudio:MmPaintingVersion = "0"` metadata element to the root. -/
def injectPaintDoc (geoms : List Mesh) (doc : ModelDoc) : ModelDoc :=
  ⟨paintObjects geoms doc.objects,
    doc.metadata ++ [("BambuStudio:MmPaintingVersion", "0")]⟩

theorem paintTriangles_length (cs : List (Option String)) (ts : List Triangle) :
    (paintTriangles cs ts).length = ts.length := by
  induction ts generalizing cs with
  | nil => cases cs <;> rfl
  | cons t ts ih =>
    cases cs with
    | nil => simpa [paintTriangles] using ih []
    | cons c0 cs2 =>
      cases c0 with
      | none => simpa [paintTriangles] using ih cs2
      | some c => simpa [paintTriangles] using ih cs2

theorem paintTriangles_get? (cs : List (Option String)) (ts : List Triangle) (j : Nat) :
    (paintTriangles cs ts).get? j = (ts.get? j).map (fun t =>
      match cs.get? j with
      | some (some c) => setPaint c t
      | _ => t) := by
  induction ts generalizing cs j with
  | nil => cases cs <;> simp [paintTriangles]
  | cons t ts ih =>
    cases cs with
    | nil =>
      cases j with
      | zero => rfl
      | succ j2 => simpa [paintTriangles] using ih [] j2
    | cons c0 cs2 =>
      cases c0 with
      | none =>
        cases j with
        | zero => rfl
        | succ j2 => simpa [paintTriangles] using ih cs2 j2
      | some c =>
        cases j with
        | zero => rfl
        | succ j2 => simpa [paintTriangles] using ih cs2 j2

theorem paintObjects_get? (gs : List Mesh) (os : List Object3MF) (i : Nat) :
    (paintObjects gs os).get? i = (os.get? i).map (fun o =>
      match gs.get? i with
      | some g =>
        if g.paintColors = [] then o
        else ⟨o.objId, paintTriangles g.paintColors o.triangles⟩
      | none => o) := by
  induction os generalizing gs i with
  | nil => cases gs <;> simp [paintObjects]
  | cons o os ih =>
    cases gs with
    | nil =>
      cases i with
      | zero => rfl
      | succ i2 => simpa [paintObjects] using ih [] i2
    | cons g gs2 =>
      cases i with
      | zero => rfl
      | succ i2 => simpa [paintObjects] using ih gs2 i2

theorem getAttr_setAttr_of_none (k v : String) (attrs : List (String × String))
    (h : getAttr k attrs = none) : getAttr k (setAttr k v attrs) = some v := by
  induction attrs with
  | nil => simp [setAttr, getAttr]
  | cons kv rest ih =>
    obtain ⟨k2, v2⟩ := kv
    rw [getAttr] at h
    by_cases hk : k2 = k
    · rw [if_pos hk] at h
      exact absurd h (by simp)
    · rw [if_neg hk] at h
      rw [setAttr, if_neg hk, getAttr, if_neg hk]
      exact ih h

/-- C4: when the i-th geometry carries a per-face paint-color list of length
N and the i-th `<object>` has N triangles (in document order) none of which
already carries a `paint_color` attribute, the paint pass leaves N triangles
on that object and gives the j-th triangle `paint_color` equal to the j-th
source value exactly when that value is non-null, leaving the attribute
absent where the source value was null. -/
theorem injectPaint_perTriangle (geoms : List Mesh) (doc : ModelDoc) (i : Nat)
    (g : Mesh) (obj : Object3MF)
    (hg : geoms.get? i = some g)
    (hobj : doc.objects.get? i = some obj)
    (hne : g.paintColors ≠ [])
    (hlen : obj.triangles.length = g.paintColors.length)
    (hclean : ∀ t ∈ obj.triangles, getAttr "paint_color" t.attrs = none) :
    ∃ obj2 : Object3MF, (injectPaintDoc geoms doc).objects.get? i = some obj2 ∧
      obj2.triangles.length = g.paintColors.length ∧
      ∀ (j : Nat) (t : Triangle), j < g.paintColors.length →
        obj2.triangles.get? j = some t →
        getAttr "paint_color" t.attrs = g.paintColors.getD j none := by
  refine ⟨⟨obj.objId, paintTriangles g.paintColors obj.triangles⟩, ?_, ?_, ?_⟩
  · show (paintObjects geoms doc.objects).get? i = _
    rw [paintObjects_get?, hobj, hg]
    simp [hne]
  · show (paintTriangles g.paintColors obj.triangles).length = _
    rw [paintTriangles_length, hlen]
  · intro j t hj ht
    show getAttr "paint_color" t.attrs = _
    rw [show (⟨obj.objId, paintTriangles g.paintColors obj.triangles⟩ :
      Object3MF).triangles = paintTriangles g.paintColors obj.triangles from rfl,
      paintTriangles_get?] at ht
    cases hts : obj.triangles.get? j with
    | none =>
      rw [hts] at ht
      exact absurd ht (by simp)
    | some t0 =>
      rw [hts] at ht
      simp only [Option.map_some'] at ht
      have ht0 : getAttr "paint_color" t0.attrs = none :=
        hclean t0 (List.get?_mem hts)
      cases hc : g.paintColors.get? j with
      | none =>
        have : g.paintColors.length ≤ j := List.get?_eq_none.mp hc
        omega
      | some copt =>
        rw [getD_of_get? _ _ _ _ hc]
        cases copt with
        | none =>
          rw [hc] at ht
          simp only [Option.some.injEq] at ht
          subst ht
          exact ht0
        | some c =>
          rw [hc] at ht
          simp only [Option.some.injEq] at ht
          subst ht
          exact getAttr_setAttr_of_none _ _ _ ht0

/-- Geometry for the C4 witness: two faces, the first painted "4", the
second null. -/
def geomW : Mesh := ⟨[⟨0, 0, 0⟩], "g", some 1, [some "4", none]⟩

/-- Document for the C4 witness: one object with two clean triangles. -/
def docW : ModelDoc :=
  ⟨[⟨"1", [⟨[("v1", "0")]⟩, ⟨[("v1", "1")]⟩]⟩], [("Title", "t")]⟩

/-- Witness for C4 at a concrete input. -/
theorem injectPaint_perTriangle_witness :
    ∃ obj2 : Object3MF, (injectPaintDoc [geomW] docW).objects.get? 0 = some obj2 ∧
      obj2.triangles.length = geomW.paintColors.length ∧
      ∀ (j : Nat) (t : Triangle), j < geomW.paintColors.length →
        obj2.triangles.get? j = some t →
        getAttr "paint_color" t.attrs = geomW.paintColors.getD j none := by
  apply injectPaint_perTriangle [geomW] docW 0 geomW ⟨"1", [⟨[("v1", "0")]⟩, ⟨[("v1", "1")]⟩]⟩
  · rfl
  · rfl
  · decide
  · rfl
  · decide

/-- Path of the root model document inside the 3MF archive. -/
def modelPath : String := "3D/3dmodel.model"

/-- Path of the per-object settings member added by the extruder pass. -/
def settingsPath : String := "Metadata/model_settings.config"

/-- Models `zipfile.ZipFile(output).read(name)`: the archive is modelled as the
ordered list of its members (member names assumed distinct, as in any
well-formed archive). -/
def lookupAr {C : Type} (name : String) : List (String × C) → Option C
  | [] => none
  | e :: es => if e.1 = name then some e.2 else lookupAr name es

/-- Models `_inject_paint_data` at the archive level.  `paintTf` abstracts the
parse → inject → re-serialize → tag-patch composite applied to the model
member (`injectPaintDoc` at document level, `fixOpeningTag` at string
level).  The pass returns the archive unchanged when no geometry has a
truthy `paint_colors` entry (that check precedes any archive access);
otherwise it writes the transformed model member first, copies every other
member, and fails (`none`, modelling the `KeyError`) when the model member
is missing. -/
def injectPaintData {C : Type} (paintTf : C → C) (geoms : List Mesh)
    (ar : List (String × C)) : Option (List (String × C)) :=
  if geoms.all (fun g => g.paintColors.isEmpty) then some ar
  else
    match lookupAr modelPath ar with
    | none => none
    | some xml =>
      some ((modelPath, paintTf xml) :: ar.filter (fun e => e.1 != modelPath))

/-- Truthiness of `metadata.get("filament_id")`. -/
def filamentTruthy : Option Nat → Bool
  | none => false
  | some n => n != 0

/-- Models `_inject_extruder_metadata` at the archive level: a no-op when no
geometry has a truthy `filament_id`; otherwise it reads the model member
(failing when absent), builds the settings document from it (`settingsOf`
abstracts reading the object ids and rendering the config XML), copies
every existing member and appends the new entry. -/
def injectExtruderMeta {C : Type} (settingsOf : C → C) (geoms : List Mesh)
    (ar : List (String × C)) : Option (List (String × C)) :=
  if geoms.all (fun g => !(filamentTruthy g.filamentId)) then some ar
  else
    match lookupAr modelPath ar with
    | none => none
    | some xml => some (ar ++ [(settingsPath, settingsOf xml)])

/-- Number of triangles in the document carrying a `paint_color`
attribute. -/
def paintAttrCount (doc : ModelDoc) : Nat :=
  (doc.objects.map (fun o =>
    (o.triangles.filter (fun t => (getAttr "paint_color" t.attrs).isSome)).length)).sum

/-- Number of root `<metadata>` elements named
`BambuStudio:MmPaintingVersion`. -/
def mmMetaCount (doc : ModelDoc) : Nat :=
  (doc.metadata.filter (fun e => e.1 == "BambuStudio:MmPaintingVersion")).length

theorem lookupAr_append_left {C : Type} (name : String) (l1 l2 : List (String × C))
    (v : C) (h : lookupAr name l1 = some v) : lookupAr name (l1 ++ l2) = some v := by
  induction l1 with
  | nil => simp [lookupAr] at h
  | cons e es ih =>
    rw [lookupAr] at h
    rw [List.cons_append, lookupAr]
    split at h
    · rename_i he
      rw [if_pos he]
      exact h
    · rename_i he
      rw [if_neg he]
      exact ih h

/-- C2: when no geometry carries per-triangle paint colors — whatever the
filament-slot assignments — the paint pass leaves the archive untouched and
the extruder pass never rewrites the model member, so the exported model
document has zero `paint_color` attributes and no
`BambuStudio:MmPaintingVersion` metadata element whenever the serializer
output had none; a filament-slot assignment alone is never turned into a
`paint_color` attribute. -/
theorem noSpuriousInjection (geoms : List Mesh) (settingsOf : ModelDoc → ModelDoc)
    (ar ar1 ar2 : List (String × ModelDoc)) (doc : ModelDoc)
    (hnp : ∀ g ∈ geoms, g.paintColors = [])
    (h1 : injectPaintData (injectPaintDoc geoms) geoms ar = some ar1)
    (h2 : injectExtruderMeta settingsOf geoms ar1 = some ar2)
    (hdoc : lookupAr modelPath ar = some doc)
    (hz : paintAttrCount doc = 0) (hm : mmMetaCount doc = 0) :
    ∃ doc2 : ModelDoc, lookupAr modelPath ar2 = some doc2 ∧
      paintAttrCount doc2 = 0 ∧ mmMetaCount doc2 = 0 := by
  have hall : geoms.all (fun g => g.paintColors.isEmpty) = true := by
    rw [List.all_eq_true]
    intro g hg
    simp [hnp g hg]
  rw [injectPaintData, if_pos hall] at h1
  simp only [Option.some.injEq] at h1
  subst h1
  rw [injectExtruderMeta] at h2
  split at h2
  · simp only [Option.some.injEq] at h2
    subst h2
    exact ⟨doc, hdoc, hz, hm⟩
  · rw [hdoc] at h2
    simp only [Option.some.injEq] at h2
    subst h2
    exact ⟨doc, lookupAr_append_left _ _ _ _ hdoc, hz, hm⟩

/-- Geometry with a filament slot but no paint data, for the C2 witness. -/
def slotW : Mesh := ⟨[⟨0, 0, 0⟩], "s", some 2, []⟩

/-- Pristine model document (no paint attributes, no painting-version
metadata) for the C2 witness. -/
def doc0 : ModelDoc := ⟨[⟨"1", [⟨[("v1", "0")]⟩]⟩], [("Title", "t")]⟩

/-- Witness for C2 at a concrete input: one part on slot 2 with no paint
data. -/
theorem noSpuriousInjection_witness :
    ∃ doc2 : ModelDoc,
      lookupAr modelPath ([(modelPath, doc0)] ++ [(settingsPath, doc0)]) = some doc2 ∧
      paintAttrCount doc2 = 0 ∧ mmMetaCount doc2 = 0 := by
  apply noSpuriousInjection [slotW] id [(modelPath, doc0)] [(modelPath, doc0)]
    ([(modelPath, doc0)] ++ [(settingsPath, doc0)]) doc0
  · decide
  · rfl
  · rfl
  · rfl
  · rfl
  · rfl

/-- C10: each post-processing pass preserves every other archive member
byte for byte.  The paint pass either returns the archive unchanged or
rewrites exactly the model member while copying all other members — so
every non-model member of the input is a member of the output — and the
extruder pass either returns the archive unchanged or copies every existing
member and appends exactly the new `Metadata/model_settings.config`
entry. -/
theorem passes_frame {C : Type} (paintTf settingsOf : C → C) (geoms : List Mesh)
    (ar ar1 ar2 : List (String × C)) :
    (injectPaintData paintTf geoms ar = some ar1 →
      (ar1 = ar ∨ ∃ xml : C, lookupAr modelPath ar = some xml ∧
        ar1 = (modelPath, paintTf xml) :: ar.filter (fun e => e.1 != modelPath)) ∧
      ∀ e ∈ ar, e.1 ≠ modelPath → e ∈ ar1) ∧
    (injectExtruderMeta settingsOf geoms ar = some ar2 →
      (ar2 = ar ∨ ∃ xml : C, lookupAr modelPath ar = some xml ∧
        ar2 = ar ++ [(settingsPath, settingsOf xml)]) ∧
      ∀ e ∈ ar, e ∈ ar2) := by
  constructor
  · intro h1
    rw [injectPaintData] at h1
    split at h1
    · simp only [Option.some.injEq] at h1
      subst h1
      exact ⟨Or.inl rfl, fun e he _ => he⟩
    · cases hl : lookupAr modelPath ar with
      | none => rw [hl] at h1; exact absurd h1 (by simp)
      | some xml =>
        rw [hl] at h1
        simp only [Option.some.injEq] at h1
        subst h1
        refine ⟨Or.inr ⟨xml, rfl, rfl⟩, fun e he hne => ?_⟩
        exact List.mem_cons_of_mem _ (List.mem_filter.mpr ⟨he, by simpa using hne⟩)
  · intro h2
    rw [injectExtruderMeta] at h2
    split at h2
    · simp only [Option.some.injEq] at h2
      subst h2
      exact ⟨Or.inl rfl, fun e he => he⟩
    · cases hl : lookupAr modelPath ar with
      | none => rw [hl] at h2; exact absurd h2 (by simp)
      | some xml =>
        rw [hl] at h2
        simp only [Option.some.injEq] at h2
        subst h2
        exact ⟨Or.inr ⟨xml, rfl, rfl⟩, fun e he => List.mem_append_left _ he⟩

/-- Witness for C10 at a concrete input: a painted geometry, a two-member
archive; the non-model member survives both passes. -/
theorem passes_frame_witness :
    ("a", "y") ∈ ((modelPath, "x") ::
      [(modelPath, ("x" : String)), ("a", "y")].filter (fun e => e.1 != modelPath)) ∧
    ("a", "y") ∈ ([(modelPath, ("x" : String)), ("a", "y")] ++ [(settingsPath, "x")]) := by
  constructor
  · exact ((passes_frame id id [geomW] [(modelPath, "x"), ("a", "y")]
      ((modelPath, "x") :: [(modelPath, ("x" : String)), ("a", "y")].filter
        (fun e => e.1 != modelPath))
      [(modelPath, ("x" : String)), ("a", "y")]).1 rfl).2 ("a", "y") (by decide) (by decide)
  · exact ((passes_frame id id [geomW] [(modelPath, "x"), ("a", "y")]
      [(modelPath, ("x" : String)), ("a", "y")]
      ([(modelPath, ("x" : String)), ("a", "y")] ++ [(settingsPath, "x")])).2 rfl).2
      ("a", "y") (by decide)

/-- Match a literal character sequence at the head of a string (as a char
list), returning the remainder on success. -/
def dropLit : List Char → List Char → Option (List Char)
  | [], s => some s
  | _ :: _, [] => none
  | c :: cs, d :: ds => if c = d then dropLit cs ds else none

/-- The longest head segment avoiding `stop`, and the remainder: the
semantics of a greedy `[^stop]*` regex piece. -/
def spanNe (stop : Char) : List Char → List Char × List Char
  | [] => ([], [])
  | c :: cs =>
    if c = stop then ([], c :: cs)
    else (c :: (spanNe stop cs).1, (spanNe stop cs).2)

/-- The literal `<?xml`. -/
def xmlLit : List Char := ['<', '?', 'x', 'm', 'l']

/-- The literal `?>`. -/
def qgtLit : List Char := ['?', '>']

/-- The literal `<model`. -/
def modelLit : List Char := ['<', 'm', 'o', 'd', 'e', 'l']

/-- The anchored regex match used by `_inject_paint_data` to capture the
opening model tag: match `<?xml`, then non-`?` characters, then `?>`, then
whitespace, then `<model`, then non-`>` characters, then `>`.  On success
it returns the text before the tag, the captured tag (group 1 of the
regex), and the rest of the document. -/
def extractModelTag (s : List Char) : Option (List Char × List Char × List Char) :=
  match dropLit xmlLit s with
  | none => none
  | some r1 =>
    match dropLit qgtLit (spanNe '?' r1).2 with
    | none => none
    | some r3 =>
      match dropLit modelLit (r3.dropWhile Char.isWhitespace) with
      | none => none
      | some r5 =>
        match (spanNe '>' r5).2 with
        | [] => none
        | _ :: r7 =>
          some (xmlLit ++ (spanNe '?' r1).1 ++ qgtLit ++ r3.takeWhile Char.isWhitespace,
            modelLit ++ (spanNe '>' r5).1 ++ ['>'], r7)

/-- Boolean head-segment test used by `replFirst`. -/
def isPre : List Char → List Char → Bool
  | [], _ => true
  | _ :: _, [] => false
  | a :: as, b :: bs => a == b && isPre as bs

/-- Python `haystack.replace(pat, rep, 1)` for a nonempty pattern: replace
the first occurrence of `pat`, leaving the string unchanged when `pat` does
not occur. -/
def replFirst (pat rep : List Char) : List Char → List Char
  | [] => []
  | c :: cs =>
    if isPre pat (c :: cs) then rep ++ (c :: cs).drop pat.length
    else c :: replFirst pat rep cs

/-- The namespace-restoring final step of `_inject_paint_data`:
`new_xml.replace(new_open.group(1), orig_open.group(1), 1)` guarded by both
regex matches succeeding. -/
def fixOpeningTag (orig new : List Char) : List Char :=
  match extractModelTag orig, extractModelTag new with
  | some (_, origTag, _), some (_, newTag, _) => replFirst newTag origTag new
  | _, _ => new

theorem dropLit_self (l s : List Char) : dropLit l (l ++ s) = some s := by
  induction l with
  | nil => rfl
  | cons c cs ih => simp [dropLit, ih]

theorem dropLit_sound (l : List Char) : ∀ s r : List Char, dropLit l s = some r → s = l ++ r := by
  induction l with
  | nil =>
    intro s r h
    simp only [dropLit, Option.some.injEq] at h
    simp [h]
  | cons c cs ih =>
    intro s r h
    cases s with
    | nil => simp [dropLit] at h
    | cons d ds =>
      rw [dropLit] at h
      split at h
      · rename_i he
        subst he
        rw [List.cons_append]
        exact congrArg _ (ih ds r h)
      · exact absurd h (by simp)

theorem spanNe_split (stop : Char) (s : List Char) :
    (spanNe stop s).1 ++ (spanNe stop s).2 = s := by
  induction s with
  | nil => rfl
  | cons c cs ih =>
    rw [spanNe]
    split
    · rfl
    · simpa using ih

theorem spanNe_fst_ne (stop : Char) (s : List Char) :
    ∀ c ∈ (spanNe stop s).1, c ≠ stop := by
  induction s with
  | nil => intro c hc; simp [spanNe] at hc
  | cons d ds ih =>
    intro c hc
    rw [spanNe] at hc
    split at hc
    · simp at hc
    · rename_i hd
      rcases List.mem_cons.mp hc with h | h
      · subst h; exact hd
      · exact ih c h

theorem spanNe_snd_head (stop : Char) (s : List Char) :
    (spanNe stop s).2 = [] ∨ ∃ t, (spanNe stop s).2 = stop :: t := by
  induction s with
  | nil => exact Or.inl rfl
  | cons d ds ih =>
    rw [spanNe]
    split
    · rename_i hd
      subst hd
      exact Or.inr ⟨ds, rfl⟩
    · simpa using ih

theorem spanNe_eq (stop : Char) (a t : List Char) (ha : ∀ c ∈ a, c ≠ stop) :
    spanNe stop (a ++ stop :: t) = (a, stop :: t) := by
  induction a with
  | nil => simp [spanNe]
  | cons c cs ih =>
    rw [List.cons_append, spanNe,
      if_neg (ha c (List.mem_cons_self _ _)),
      ih (fun x hx => ha x (List.mem_cons_of_mem _ hx))]

theorem dropWhile_ws (p : Char → Bool) (w : List Char) (c : Char) (r : List Char)
    (hw : ∀ x ∈ w, p x = true) (hc : p c = false) :
    (w ++ c :: r).dropWhile p = c :: r ∧ (w ++ c :: r).takeWhile p = w := by
  induction w with
  | nil => simp [List.dropWhile_cons, List.takeWhile_cons, hc]
  | cons x xs ih =>
    have hx := hw x (List.mem_cons_self _ _)
    have ih2 := ih (fun y hy => hw y (List.mem_cons_of_mem _ hy))
    constructor
    · rw [List.cons_append, List.dropWhile_cons, if_pos hx]
      exact ih2.1
    · rw [List.cons_append, List.takeWhile_cons, if_pos hx, ih2.2]

theorem isPre_self_append (p s : List Char) : isPre p (p ++ s) = true := by
  induction p with
  | nil => rfl
  | cons a as ih => simp [isPre, ih]

theorem replFirst_at (pat rep pre post : List Char) (hpat : pat ≠ [])
    (hfirst : ∀ i, i < pre.length → isPre pat ((pre ++ pat ++ post).drop i) = false) :
    replFirst pat rep (pre ++ pat ++ post) = pre ++ rep ++ post := by
  induction pre with
  | nil =>
    cases pat with
    | nil => exact absurd rfl hpat
    | cons a as =>
      simp only [List.nil_append]
      rw [show (a :: as) ++ post = a :: (as ++ post) from rfl, replFirst,
        if_pos (by rw [show a :: (as ++ post) = (a :: as) ++ post from rfl]
                   exact isPre_self_append _ _)]
      rw [show a :: (as ++ post) = (a :: as) ++ post from rfl, List.drop_left]
  | cons c pre2 ih =>
    have h0 : isPre pat (c :: (pre2 ++ (pat ++ post))) = false := by
      have := hfirst 0 (by simp)
      simpa [List.append_assoc] using this
    rw [show (c :: pre2) ++ pat ++ post = c :: (pre2 ++ pat ++ post) from rfl, replFirst,
      if_neg (by simp [h0])]
    rw [ih (fun i hi => by
      have := hfirst (i + 1) (by simpa using Nat.succ_lt_succ hi)
      simpa using this)]
    rfl

theorem extractModelTag_inv (s p tag q : List Char)
    (h : extractModelTag s = some (p, tag, q)) :
    ∃ b w mid : List Char,
      p = xmlLit ++ b ++ qgtLit ++ w ∧ tag = modelLit ++ mid ++ ['>'] ∧
      s = p ++ tag ++ q ∧ (∀ c ∈ b, c ≠ '?') ∧
      (∀ c ∈ w, c.isWhitespace = true) ∧ (∀ c ∈ mid, c ≠ '>') := by
  rw [extractModelTag] at h
  split at h
  · exact absurd h (by simp)
  rename_i r1 h1
  split at h
  · exact absurd h (by simp)
  rename_i r3 h2
  split at h
  · exact absurd h (by simp)
  rename_i r5 h3
  split at h
  · exact absurd h (by simp)
  rename_i c0 r7 h4
  simp only [Option.some.injEq, Prod.mk.injEq] at h
  obtain ⟨hp, htag, hq⟩ := h
  have e7 : c0 = '>' := by
    rcases spanNe_snd_head '>' r5 with h' | ⟨t, h'⟩
    · rw [h4] at h'
      exact absurd h' (by simp)
    · rw [h4] at h'
      injection h' with hc _
  refine ⟨(spanNe '?' r1).1, r3.takeWhile Char.isWhitespace, (spanNe '>' r5).1,
    hp.symm, htag.symm, ?_, spanNe_fst_ne _ _, ?_, spanNe_fst_ne _ _⟩
  · have e1 : s = xmlLit ++ r1 := dropLit_sound _ _ _ h1
    have e3 : (spanNe '?' r1).2 = qgtLit ++ r3 := dropLit_sound _ _ _ h2
    have e5 : r3.dropWhile Char.isWhitespace = modelLit ++ r5 := dropLit_sound _ _ _ h3
    have er1 : r1 = (spanNe '?' r1).1 ++ (qgtLit ++ r3) := by
      have t := spanNe_split '?' r1
      rw [e3] at t
      exact t.symm
    have er3 : r3 = List.takeWhile Char.isWhitespace r3 ++ (modelLit ++ r5) := by
      have t := List.takeWhile_append_dropWhile Char.isWhitespace r3
      rw [e5] at t
      exact t.symm
    have er5 : r5 = (spanNe '>' r5).1 ++ ('>' :: r7) := by
      have t := spanNe_split '>' r5
      rw [h4, e7] at t
      exact t.symm
    rw [← hp, ← htag, ← hq, e1]
    calc xmlLit ++ r1
        = xmlLit ++ ((spanNe '?' r1).1 ++ (qgtLit ++ r3)) := congrArg _ er1
      _ = xmlLit ++ ((spanNe '?' r1).1 ++ (qgtLit ++
            (List.takeWhile Char.isWhitespace r3 ++ (modelLit ++ r5)))) :=
        congrArg (fun t => xmlLit ++ ((spanNe '?' r1).1 ++ (qgtLit ++ t))) er3
      _ = xmlLit ++ ((spanNe '?' r1).1 ++ (qgtLit ++
            (List.takeWhile Char.isWhitespace r3 ++ (modelLit ++
              ((spanNe '>' r5).1 ++ ('>' :: r7)))))) :=
        congrArg (fun t => xmlLit ++ ((spanNe '?' r1).1 ++ (qgtLit ++
          (List.takeWhile Char.isWhitespace r3 ++ (modelLit ++ t))))) er5
      _ = (xmlLit ++ (spanNe '?' r1).1 ++ qgtLit ++ List.takeWhile Char.isWhitespace r3) ++
            (modelLit ++ (spanNe '>' r5).1 ++ ['>']) ++ r7 := by
        simp [List.append_assoc]
  · intro c hc
    exact List.mem_takeWhile_imp hc

theorem extractModelTag_reparse (b w mid q : List Char)
    (hb : ∀ c ∈ b, c ≠ '?') (hw : ∀ c ∈ w, c.isWhitespace = true)
    (hmid : ∀ c ∈ mid, c ≠ '>') :
    extractModelTag (xmlLit ++ b ++ qgtLit ++ w ++ (modelLit ++ mid ++ ['>']) ++ q) =
      some (xmlLit ++ b ++ qgtLit ++ w, modelLit ++ mid ++ ['>'], q) := by
  have hd1 : dropLit xmlLit (xmlLit ++ b ++ qgtLit ++ w ++ (modelLit ++ mid ++ ['>']) ++ q) =
      some (b ++ '?' :: '>' ::
        (w ++ '<' :: (['m', 'o', 'd', 'e', 'l'] ++ (mid ++ '>' :: q)))) := by
    rw [show xmlLit ++ b ++ qgtLit ++ w ++ (modelLit ++ mid ++ ['>']) ++ q =
        xmlLit ++ (b ++ '?' :: '>' ::
          (w ++ '<' :: (['m', 'o', 'd', 'e', 'l'] ++ (mid ++ '>' :: q)))) from by
      simp [xmlLit, qgtLit, modelLit, List.append_assoc]]
    exact dropLit_self _ _
  have hs1 : spanNe '?' (b ++ '?' :: '>' ::
      (w ++ '<' :: (['m', 'o', 'd', 'e', 'l'] ++ (mid ++ '>' :: q)))) =
      (b, '?' :: '>' :: (w ++ '<' :: (['m', 'o', 'd', 'e', 'l'] ++ (mid ++ '>' :: q)))) :=
    spanNe_eq _ _ _ hb
  have hd2 : dropLit qgtLit ('?' :: '>' ::
      (w ++ '<' :: (['m', 'o', 'd', 'e', 'l'] ++ (mid ++ '>' :: q)))) =
      some (w ++ '<' :: (['m', 'o', 'd', 'e', 'l'] ++ (mid ++ '>' :: q))) :=
    dropLit_self qgtLit _
  have hdw := dropWhile_ws Char.isWhitespace w '<'
    (['m', 'o', 'd', 'e', 'l'] ++ (mid ++ '>' :: q)) hw (by decide)
  have hd3 : dropLit modelLit ('<' :: (['m', 'o', 'd', 'e', 'l'] ++ (mid ++ '>' :: q))) =
      some (mid ++ '>' :: q) :=
    dropLit_self modelLit _
  have hs2 : spanNe '>' (mid ++ '>' :: q) = (mid, '>' :: q) := spanNe_eq _ _ _ hmid
  rw [extractModelTag, hd1]
  simp only [hs1, hd2, hdw.1, hdw.2, hd3, hs2]

/-- C1: whenever the paint-injection pass runs and both regex matches
succeed (with the opening tag being the first occurrence of its own text in
the re-serialized document, as `str.replace(..., 1)` requires), the final
serialized model document is the re-serialized document with its opening
`<model ...>` tag replaced, as a string, by the pre-injection opening tag —
so the final document's opening tag is textually identical to the
pre-injection one and therefore contains every `xmlns:*` attribute the
pre-injection document declared. -/
theorem fixOpeningTag_preserves (orig new po qo pn qn origTag newTag : List Char)
    (ho : extractModelTag orig = some (po, origTag, qo))
    (hn : extractModelTag new = some (pn, newTag, qn))
    (hfirst : ∀ i, i < pn.length → isPre newTag ((pn ++ newTag ++ qn).drop i) = false) :
    fixOpeningTag orig new = pn ++ origTag ++ qn ∧
    extractModelTag (fixOpeningTag orig new) = some (pn, origTag, qn) := by
  obtain ⟨ob, ow, omid, hop, hotag, hos, hob, how, homid⟩ := extractModelTag_inv _ _ _ _ ho
  obtain ⟨nb, nw, nmid, hnp2, hntag, hns, hnb, hnw, hnmid⟩ := extractModelTag_inv _ _ _ _ hn
  have hpat : newTag ≠ [] := by
    rw [hntag]
    simp [modelLit]
  have hrepl : fixOpeningTag orig new = pn ++ origTag ++ qn := by
    rw [fixOpeningTag, ho, hn]
    show replFirst newTag origTag new = pn ++ origTag ++ qn
    rw [hns]
    exact replFirst_at newTag origTag pn qn hpat hfirst
  refine ⟨hrepl, ?_⟩
  rw [hrepl, hnp2, hotag]
  exact extractModelTag_reparse nb nw omid qn hnb hnw homid

/-- Pre-injection document for the C1 witness. -/
def origW : List Char := "<?xml a?><model b>x".toList

/-- Re-serialized document for the C1 witness: its opening tag lost the
attribute. -/
def newW : List Char := "<?xml a?><model>y".toList

/-- Witness for C1 at a concrete input. -/
theorem fixOpeningTag_preserves_witness :
    fixOpeningTag origW newW =
      "<?xml a?>".toList ++ "<model b>".toList ++ "y".toList ∧
    extractModelTag (fixOpeningTag origW newW) =
      some ("<?xml a?>".toList, "<model b>".toList, "y".toList) := by
  apply fixOpeningTag_preserves origW newW "<?xml a?>".toList "x".toList
    "<?xml a?>".toList "y".toList "<model b>".toList "<model>".toList
  · decide
  · decide
  · decide
